import Mathlib

/-!
Verification of the replication/merge engine of `actual/__init__.py` (class
`Actual`): the merge applier (`apply_changes`), the metadata side channel
(`update_metadata`), the sync round (`sync`), the commit path (`commit`),
the encryption-key download (`download_master_encryption_key`) and the
bank-sync reconciliation driver (`_run_bank_sync_account`).

The embedding is shallow: every method is translated into a pure Lean
function over an explicit state.  Collaborators that live in other modules
of the repository (`actual.database.apply_change`, the schema reflection
helpers, `actual.queries.*`, `actual.crypto.create_key_buffer`,
`actual.protobuf_models.HULC_Client`) are modelled from the specification,
as marked in their doc comments.
-/

namespace Actualpy

/-- The decoded value carried by one sync message (`Message.get_value`).
Modelled from the spec: the `Variant(null|bool|i64|f64|string)` of a
`ChangeRecord`; the floating-point kind is irrelevant to the claims and is
omitted. -/
inductive Value where
  | null : Value
  | bool (b : Bool) : Value
  | int (n : Int) : Value
  | str (s : String) : Value
deriving DecidableEq, Repr

/-- A hybrid-logical-clock timestamp.  Modelled from the spec:
`LogicalTimestamp { millis, counter, clientId }`, ordered by `millis`,
then `counter`, then `clientId`. -/
structure Timestamp where
  millis : Nat
  counter : Nat
  clientId : String
deriving DecidableEq, Repr

/-- One sync message, i.e. one field-level change record
(`protobuf_models.Message` with its value already decoded). -/
structure Message where
  dataset : String
  row : String
  column : String
  value : Value
  timestamp : Timestamp
deriving DecidableEq, Repr

/-- The reflected schema (`self._meta`): the list of known table names,
each with its known column names.  Modelled from the spec: the local
store's schema introspection `resolveColumn(dataset, name)`. -/
abbrev Schema : Type := List (String × List String)

/-- `get_class_from_reflected_table_name`: resolves a dataset name to its
reflected table, `none` when the table is unknown.  Modelled from the
spec: tables are identified by their names, so the model returns the
dataset name itself as the "class". -/
def get_class_from_reflected_table_name (meta : Schema) (name : String) :
    Option String :=
  match meta.lookup name with
  | some _ => some name
  | none => none

/-- `get_attribute_from_reflected_table_name`: resolves a column name of a
table to the mapped attribute, `none` when unknown.  Modelled from the
spec: attributes are identified by the column name itself. -/
def get_attribute_from_reflected_table_name (meta : Schema) (table column : String) :
    Option String :=
  match meta.lookup table with
  | some cols => if column ∈ cols then some column else none
  | none => none

/-- The relational store, addressed by `(dataset, row, column)`; `none`
means the cell was never written. -/
abbrev DB : Type := String → String → String → Option Value

/-- The side-channel metadata document (`metadata.json`), a flat key/value
map; `none` means the key is absent. -/
abbrev Meta : Type := String → Option Value

/-- The observable local state: the relational store plus the metadata
document. -/
structure State where
  db : DB
  meta : Meta

/-- A partial map used both for the accumulated `{column: value}` group of
`apply_changes` (a Python dict) and for `update_metadata` patches. -/
abbrev Dict : Type := String → Option Value

/-- The empty dict (`{}`). -/
def Dict.empty : Dict := fun _ => none

/-- The one-entry dict `{k: v}`. -/
def Dict.single (k : String) (v : Value) : Dict :=
  fun k' => if k' = k then some v else none

/-- Python dict assignment `d[k] = v`: the new binding wins, all other
keys are preserved. -/
def Dict.insert (d : Dict) (k : String) (v : Value) : Dict :=
  fun k' => if k' = k then some v else d k'

/-- `actual.database.apply_change(s, table, id, values)`.  Modelled from
the spec: the local store's `update(dataset, row, attrs)` — merge the
attribute dict into the addressed row, overwriting the written columns and
preserving every other cell. -/
def apply_change (db : DB) (table id : String) (values : Dict) : DB :=
  fun d r c =>
    if d = table ∧ r = id then
      match values c with
      | some v => some v
      | none => db d r c
    else db d r c

/-- `Actual.update_metadata`: merge a patch dict into the metadata
document, overwriting patched keys and keeping the rest (translation of
`config.update(patch)` followed by the rewrite of the file; a missing
file is the empty document, for which the merge degenerates to the patch
itself). -/
def update_metadata (meta : Meta) (patch : Dict) : Meta :=
  fun k =>
    match patch k with
    | some v => some v
    | none => meta k

/-- The error raised by `apply_changes` (`ActualError`, the spec's
`UnsupportedSchemaError`): an unknown table or an unknown column of a
known table. -/
inductive ApplyError where
  | tableNotFound (dataset : String) : ApplyError
  | columnNotFound (dataset column : String) : ApplyError
deriving DecidableEq, Repr

/-- Python truthiness of an optional string (`None` and `""` are falsy). -/
def optTruthy : Option String → Bool
  | none => false
  | some s => !(s = "")

/-- The running group of `apply_changes`: `(current_table, current_id,
current_value)`; `none` models the initial `None, None, {}` triple. -/
abbrev Group : Type := Option (String × String × Dict)

/-- The loop body of `Actual.apply_changes`, threading the running group,
the session's uncommitted relational writes and the metadata document.
On failure the error carries the metadata document as already rewritten
(metadata writes are files and are not rolled back with the session). -/
def applyLoop (sch : Schema) : List Message → Group → DB → Meta →
    Except (ApplyError × Meta) (DB × Meta)
  | [], group, db, meta =>
    -- `if current_table is not None and current_id is not None ...`
    match group with
    | some (t, i, vals) => .ok (apply_change db t i vals, meta)
    | none => .ok (db, meta)
  | m :: rest, group, db, meta =>
    if m.dataset = "prefs" then
      -- `self.update_metadata({message.row: message.get_value()})`
      applyLoop sch rest group db (update_metadata meta (Dict.single m.row m.value))
    else
      match get_class_from_reflected_table_name sch m.dataset with
      | none => .error (.tableNotFound m.dataset, meta)
      | some table =>
        match get_attribute_from_reflected_table_name sch m.dataset m.column with
        | none => .error (.columnNotFound m.dataset m.column, meta)
        | some column =>
          match group with
          | some (t, i, vals) =>
            -- `if current_id and (current_id != next_id or table != current_table)`
            if ¬i = "" ∧ (¬i = m.row ∨ ¬t = table) then
              applyLoop sch rest (some (table, m.row, Dict.single column m.value))
                (apply_change db t i vals) meta
            else
              applyLoop sch rest (some (table, m.row, Dict.insert vals column m.value)) db meta
          | none =>
            applyLoop sch rest (some (table, m.row, Dict.single column m.value)) db meta

/-- `Actual.apply_changes`: apply an ordered list of sync messages.  The
session commits only when every message applied, so on error the
relational store is left untouched, while metadata writes made before the
error persist. -/
def apply_changes (sch : Schema) (msgs : List Message) (st : State) :
    Option ApplyError × State :=
  match applyLoop sch msgs none st.db st.meta with
  | .ok (db, meta) => (none, ⟨db, meta⟩)
  | .error (e, meta) => (some e, ⟨st.db, meta⟩)

/-- A message whose dataset and column both resolve against the schema. -/
def knownMsg (sch : Schema) (m : Message) : Prop :=
  (get_class_from_reflected_table_name sch m.dataset).isSome = true ∧
    (get_attribute_from_reflected_table_name sch m.dataset m.column).isSome = true

instance (sch : Schema) (m : Message) : Decidable (knownMsg sch m) := by
  unfold knownMsg; infer_instance

/-- Reference semantics, from the spec's words: apply every record's
`(column, value)` assignment individually in the given order (no
grouping); used as the specification side of the refinement claim. -/
def indLoop (sch : Schema) : List Message → DB → Meta →
    Except (ApplyError × Meta) (DB × Meta)
  | [], db, meta => .ok (db, meta)
  | m :: rest, db, meta =>
    if m.dataset = "prefs" then
      indLoop sch rest db (update_metadata meta (Dict.single m.row m.value))
    else
      match get_class_from_reflected_table_name sch m.dataset with
      | none => .error (.tableNotFound m.dataset, meta)
      | some table =>
        match get_attribute_from_reflected_table_name sch m.dataset m.column with
        | none => .error (.columnNotFound m.dataset m.column, meta)
        | some column =>
          indLoop sch rest (apply_change db table m.row (Dict.single column m.value)) meta

/-- Reference semantics wrapper with the rollback convention of
`apply_changes`. -/
def apply_individually (sch : Schema) (msgs : List Message) (st : State) :
    Option ApplyError × State :=
  match indLoop sch msgs st.db st.meta with
  | .ok (db, meta) => (none, ⟨db, meta⟩)
  | .error (e, meta) => (some e, ⟨st.db, meta⟩)

/-- The value of the last message of the list addressing the key
`(d, r, c)`, if any. -/
def lastValueFor (d r c : String) : List Message → Option Value
  | [] => none
  | m :: rest =>
    match lastValueFor d r c rest with
    | some v => some v
    | none => if m.dataset = d ∧ m.row = r ∧ m.column = c then some m.value else none

lemma get_class_eq_of_known {sch : Schema} {m : Message} (h : knownMsg sch m) :
    get_class_from_reflected_table_name sch m.dataset = some m.dataset := by
  rcases h with ⟨h1, _⟩
  unfold get_class_from_reflected_table_name at h1 ⊢
  cases hl : sch.lookup m.dataset with
  | some cols => rfl
  | none => rw [hl] at h1; simp at h1

lemma get_attr_eq_of_known {sch : Schema} {m : Message} (h : knownMsg sch m) :
    get_attribute_from_reflected_table_name sch m.dataset m.column = some m.column := by
  rcases h with ⟨_, h2⟩
  unfold get_attribute_from_reflected_table_name at h2 ⊢
  cases hl : sch.lookup m.dataset with
  | some cols =>
    rw [hl] at h2
    by_cases hc : m.column ∈ cols
    · simp [hc]
    · simp [hc] at h2
  | none => rw [hl] at h2; simp at h2

/-- Merging a grown dict equals merging the old dict and then writing the
new binding individually. -/
lemma apply_change_insert (db : DB) (t i c : String) (vals : Dict) (v : Value) :
    apply_change db t i (Dict.insert vals c v)
      = apply_change (apply_change db t i vals) t i (Dict.single c v) := by
  funext d r c'
  unfold apply_change Dict.insert Dict.single
  by_cases hd : d = t ∧ r = i
  · simp only [hd, if_pos]
    by_cases hc : c' = c <;> simp [hc]
  · simp [hd]

/-- The final flush of the running group. -/
def groupFlush (db : DB) : Group → DB
  | some (t, i, vals) => apply_change db t i vals
  | none => db

/-- Core C1 lemma: on messages that are all known, non-`prefs` and with a
non-empty row id, the grouped loop computes exactly the individual
semantics, for any running group whose id is non-empty. -/
lemma applyLoop_eq_indLoop (sch : Schema) (msgs : List Message)
    (hv : ∀ m ∈ msgs, ¬m.dataset = "prefs" ∧ knownMsg sch m)
    (hrow : ∀ m ∈ msgs, ¬m.row = "") :
    ∀ (group : Group) (db : DB) (meta : Meta),
      (∀ t i vals, group = some (t, i, vals) → ¬i = "") →
      applyLoop sch msgs group db meta = indLoop sch msgs (groupFlush db group) meta := by
  induction msgs with
  | nil =>
    intro group db meta _
    cases group with
    | some g => rcases g with ⟨t, i, vals⟩; rfl
    | none => rfl
  | cons m rest ih =>
    intro group db meta hgroup
    have hm := hv m (by simp)
    have hmrow := hrow m (by simp)
    have hv' : ∀ m' ∈ rest, ¬m'.dataset = "prefs" ∧ knownMsg sch m' := by
      intro m' hm'; exact hv m' (by simp [hm'])
    have hrow' : ∀ m' ∈ rest, ¬m'.row = "" := by
      intro m' hm'; exact hrow m' (by simp [hm'])
    have hfresh : ∀ (d' : Dict) (t' i' : String) (vals' : Dict),
        some (m.dataset, m.row, d') = some (t', i', vals') → ¬i' = "" := by
      intro d' t' i' vals' hsome
      simp only [Option.some.injEq, Prod.mk.injEq] at hsome
      rw [← hsome.2.1]
      exact hmrow
    unfold applyLoop indLoop
    rw [if_neg hm.1, if_neg hm.1, get_class_eq_of_known hm.2, get_attr_eq_of_known hm.2]
    simp only []
    cases group with
    | none =>
      simp only [groupFlush]
      rw [ih hv' hrow' (some (m.dataset, m.row, Dict.single m.column m.value)) db meta
        (hfresh (Dict.single m.column m.value))]
      rfl
    | some g =>
      rcases g with ⟨t, i, vals⟩
      simp only []
      have hi : ¬i = "" := hgroup t i vals rfl
      by_cases hflush : ¬i = m.row ∨ ¬t = m.dataset
      · rw [if_pos ⟨hi, hflush⟩]
        rw [ih hv' hrow' (some (m.dataset, m.row, Dict.single m.column m.value))
          (apply_change db t i vals) meta (hfresh (Dict.single m.column m.value))]
        rfl
      · rw [if_neg (by intro hcontra; exact hflush hcontra.2)]
        push_neg at hflush
        rw [ih hv' hrow' (some (m.dataset, m.row, Dict.insert vals m.column m.value)) db meta
          (hfresh (Dict.insert vals m.column m.value))]
        simp only [groupFlush]
        rw [apply_change_insert, hflush.1, hflush.2]

/-- Last-writer-wins characterization of the individual semantics on
known, non-`prefs` messages. -/
lemma indLoop_lastValue (sch : Schema) (msgs : List Message)
    (hv : ∀ m ∈ msgs, ¬m.dataset = "prefs" ∧ knownMsg sch m) :
    ∀ (db : DB) (meta : Meta),
      indLoop sch msgs db meta =
        .ok (fun d r c =>
          match lastValueFor d r c msgs with
          | some v => some v
          | none => db d r c, meta) := by
  induction msgs with
  | nil =>
    intro db meta
    rfl
  | cons m rest ih =>
    intro db meta
    have hm := hv m (by simp)
    have hv' : ∀ m' ∈ rest, ¬m'.dataset = "prefs" ∧ knownMsg sch m' := by
      intro m' hm'; exact hv m' (by simp [hm'])
    unfold indLoop
    rw [if_neg hm.1, get_class_eq_of_known hm.2, get_attr_eq_of_known hm.2]
    simp only []
    rw [ih hv']
    refine congrArg Except.ok (Prod.ext ?_ rfl)
    funext d r c
    simp only [lastValueFor]
    cases hlast : lastValueFor d r c rest with
    | some v => rfl
    | none =>
      simp only []
      unfold apply_change Dict.single
      by_cases h1 : m.dataset = d ∧ m.row = r ∧ m.column = c
      · rw [if_pos h1, if_pos ⟨h1.1.symm, h1.2.1.symm⟩, if_pos h1.2.2.symm]
      · rw [if_neg h1]
        by_cases h2 : d = m.dataset ∧ r = m.row
        · rw [if_pos h2]
          have hc : ¬c = m.column := by
            intro hc
            exact h1 ⟨h2.1.symm, h2.2.symm, hc.symm⟩
          rw [if_neg hc]
        · rw [if_neg h2]

/-- **C1** (amended): for every ordered sequence of sync messages whose
datasets are known, whose columns are known, whose dataset is not
`"prefs"` **and whose row ids are non-empty**, `apply_changes` leaves the
local store in the same final state as applying each message's
`(column, value)` assignment individually in the given order: for each
`(dataset, row, column)` the value of the last message in the whole
sequence for that key is the one stored, regardless of how the
consecutive-`(dataset, row)` grouping batches the writes. -/
theorem apply_changes_equals_individual (sch : Schema) (msgs : List Message) (st : State)
    (hv : ∀ m ∈ msgs, ¬m.dataset = "prefs" ∧ knownMsg sch m)
    (hrow : ∀ m ∈ msgs, ¬m.row = "") :
    apply_changes sch msgs st = apply_individually sch msgs st ∧
    ∀ d r c, (apply_changes sch msgs st).2.db d r c =
      match lastValueFor d r c msgs with
      | some v => some v
      | none => st.db d r c := by
  have hnone : ∀ (t i : String) (vals : Dict), (none : Group) = some (t, i, vals) → ¬i = "" := by
    intro t i vals h
    simp at h
  have h1 := applyLoop_eq_indLoop sch msgs hv hrow none st.db st.meta hnone
  simp only [groupFlush] at h1
  have h2 := indLoop_lastValue sch msgs hv st.db st.meta
  constructor
  · unfold apply_changes apply_individually
    rw [h1]
  · intro d r c
    unfold apply_changes
    rw [h1, h2]

/-- **C1 counterexample**: the claim as stated is false.  Both messages
below have a known dataset and column and are not `"prefs"`, yet because
the first row id is the empty string (which is falsy in Python, so the
`if current_id and ...` guard never flushes the first group),
`apply_changes` stores value `100` in cell `("t", "B", "a")` even though
no message in the sequence ever addressed that key. -/
theorem apply_changes_grouping_leak :
    (∀ m ∈ ([⟨"t", "", "a", Value.int 100, ⟨0, 0, "c"⟩⟩,
             ⟨"t", "B", "b", Value.int 200, ⟨0, 0, "c"⟩⟩] : List Message),
        ¬m.dataset = "prefs" ∧ knownMsg [("t", ["a", "b"])] m) ∧
    lastValueFor "t" "B" "a"
        ([⟨"t", "", "a", Value.int 100, ⟨0, 0, "c"⟩⟩,
          ⟨"t", "B", "b", Value.int 200, ⟨0, 0, "c"⟩⟩] : List Message) = none ∧
    (⟨fun _ _ _ => none, fun _ => none⟩ : State).db "t" "B" "a" = none ∧
    (apply_changes [("t", ["a", "b"])]
        ([⟨"t", "", "a", Value.int 100, ⟨0, 0, "c"⟩⟩,
          ⟨"t", "B", "b", Value.int 200, ⟨0, 0, "c"⟩⟩] : List Message)
        ⟨fun _ _ _ => none, fun _ => none⟩).2.db "t" "B" "a" = some (Value.int 100) := by
  refine ⟨by decide, rfl, rfl, rfl⟩

/-- **C1 witness**: the amended theorem applied to the spec's own example
(two assignments to the same cell; the later one wins). -/
theorem apply_changes_equals_individual_witness :
    (∀ m ∈ ([⟨"transactions", "A", "amount", Value.int 100, ⟨1, 0, "c"⟩⟩,
             ⟨"transactions", "A", "amount", Value.int 200, ⟨2, 0, "c"⟩⟩] : List Message),
        ¬m.dataset = "prefs" ∧ knownMsg [("transactions", ["amount"])] m) ∧
    (∀ m ∈ ([⟨"transactions", "A", "amount", Value.int 100, ⟨1, 0, "c"⟩⟩,
             ⟨"transactions", "A", "amount", Value.int 200, ⟨2, 0, "c"⟩⟩] : List Message),
        ¬m.row = "") ∧
    (apply_changes [("transactions", ["amount"])]
        ([⟨"transactions", "A", "amount", Value.int 100, ⟨1, 0, "c"⟩⟩,
          ⟨"transactions", "A", "amount", Value.int 200, ⟨2, 0, "c"⟩⟩] : List Message)
        ⟨fun _ _ _ => none, fun _ => none⟩
      = apply_individually [("transactions", ["amount"])]
        ([⟨"transactions", "A", "amount", Value.int 100, ⟨1, 0, "c"⟩⟩,
          ⟨"transactions", "A", "amount", Value.int 200, ⟨2, 0, "c"⟩⟩] : List Message)
        ⟨fun _ _ _ => none, fun _ => none⟩ ∧
    ∀ d r c, (apply_changes [("transactions", ["amount"])]
        ([⟨"transactions", "A", "amount", Value.int 100, ⟨1, 0, "c"⟩⟩,
          ⟨"transactions", "A", "amount", Value.int 200, ⟨2, 0, "c"⟩⟩] : List Message)
        ⟨fun _ _ _ => none, fun _ => none⟩).2.db d r c =
      match lastValueFor d r c
          ([⟨"transactions", "A", "amount", Value.int 100, ⟨1, 0, "c"⟩⟩,
            ⟨"transactions", "A", "amount", Value.int 200, ⟨2, 0, "c"⟩⟩] : List Message) with
      | some v => some v
      | none => (⟨fun _ _ _ => none, fun _ => none⟩ : State).db d r c) :=
  ⟨by decide, by decide,
    apply_changes_equals_individual [("transactions", ["amount"])] _ _ (by decide) (by decide)⟩

/-- The net relational write set of a run: `some v` for every cell the run
writes. -/
abbrev DbWrites : Type := DB

/-- Overlay a write set on a store: written cells win, every other cell is
preserved. -/
def overlayDB (w : DbWrites) (db : DB) : DB :=
  fun d r c =>
    match w d r c with
    | some v => some v
    | none => db d r c

/-- Sequential composition of write sets (`later` applied after
`earlier`). -/
def combineW (later earlier : DbWrites) : DbWrites :=
  fun d r c =>
    match later d r c with
    | some v => some v
    | none => earlier d r c

/-- Sequential composition of metadata patches (`later` applied after
`earlier`). -/
def combineM (later earlier : Dict) : Dict :=
  fun k =>
    match later k with
    | some v => some v
    | none => earlier k

/-- The write set of flushing one group. -/
def groupWrites : Group → DbWrites
  | some (t, i, vals) => fun d r c => if d = t ∧ r = i then vals c else none
  | none => fun _ _ _ => none

/-- The write sets computed by the `apply_changes` loop: on success, the
relational write set and the metadata patch; on failure, the error and the
metadata patch accumulated before it.  These depend only on the messages,
never on the store contents. -/
def loopChanges (sch : Schema) : List Message → Group →
    Except (ApplyError × Dict) (DbWrites × Dict)
  | [], group => .ok (groupWrites group, Dict.empty)
  | m :: rest, group =>
    if m.dataset = "prefs" then
      match loopChanges sch rest group with
      | .ok (w, mw) => .ok (w, combineM mw (Dict.single m.row m.value))
      | .error (e, mw) => .error (e, combineM mw (Dict.single m.row m.value))
    else
      match get_class_from_reflected_table_name sch m.dataset with
      | none => .error (.tableNotFound m.dataset, Dict.empty)
      | some table =>
        match get_attribute_from_reflected_table_name sch m.dataset m.column with
        | none => .error (.columnNotFound m.dataset m.column, Dict.empty)
        | some column =>
          match group with
          | some (t, i, vals) =>
            if ¬i = "" ∧ (¬i = m.row ∨ ¬t = table) then
              match loopChanges sch rest (some (table, m.row, Dict.single column m.value)) with
              | .ok (w, mw) => .ok (combineW w (groupWrites (some (t, i, vals))), mw)
              | .error em => .error em
            else
              loopChanges sch rest (some (table, m.row, Dict.insert vals column m.value))
          | none =>
            loopChanges sch rest (some (table, m.row, Dict.single column m.value))

lemma overlayDB_combine (w1 w2 : DbWrites) (db : DB) :
    overlayDB (combineW w1 w2) db = overlayDB w1 (overlayDB w2 db) := by
  funext d r c
  unfold overlayDB combineW
  cases w1 d r c <;> rfl

lemma update_metadata_combine (meta : Meta) (m1 m2 : Dict) :
    update_metadata meta (combineM m1 m2) = update_metadata (update_metadata meta m2) m1 := by
  funext k
  unfold update_metadata combineM
  cases m1 k <;> rfl

lemma update_metadata_empty (meta : Meta) : update_metadata meta Dict.empty = meta := rfl

lemma overlayDB_groupWrites (db : DB) (t i : String) (vals : Dict) :
    overlayDB (groupWrites (some (t, i, vals))) db = apply_change db t i vals := by
  funext d r c
  unfold overlayDB groupWrites apply_change
  simp only []
  by_cases h : d = t ∧ r = i
  · rw [if_pos h, if_pos h]
  · rw [if_neg h, if_neg h]

lemma overlayDB_none (db : DB) : overlayDB (groupWrites none) db = db := rfl

lemma overlayDB_idem (w : DbWrites) (db : DB) :
    overlayDB w (overlayDB w db) = overlayDB w db := by
  funext d r c
  unfold overlayDB
  cases w d r c <;> rfl

lemma update_metadata_idem (meta : Meta) (mw : Dict) :
    update_metadata (update_metadata meta mw) mw = update_metadata meta mw := by
  funext k
  unfold update_metadata
  cases mw k <;> rfl

/-- Decomposition of the `apply_changes` loop: the run on any store equals
the overlay of a store-independent write set.  This is the formal content
of "writes are field-level assignments whose values depend only on the
records". -/
lemma applyLoop_decompose (sch : Schema) (msgs : List Message) :
    ∀ (group : Group) (db : DB) (meta : Meta),
      applyLoop sch msgs group db meta =
        match loopChanges sch msgs group with
        | .ok (w, mw) => .ok (overlayDB w db, update_metadata meta mw)
        | .error (e, mw) => .error (e, update_metadata meta mw) := by
  induction msgs with
  | nil =>
    intro group db meta
    cases group with
    | some g =>
      rcases g with ⟨t, i, vals⟩
      unfold applyLoop loopChanges
      simp only []
      rw [update_metadata_empty, overlayDB_groupWrites]
    | none =>
      unfold applyLoop loopChanges
      simp only []
      rw [update_metadata_empty, overlayDB_none]
  | cons m rest ih =>
    intro group db meta
    unfold applyLoop loopChanges
    by_cases hp : m.dataset = "prefs"
    · rw [if_pos hp, if_pos hp, ih]
      cases hrec : loopChanges sch rest group with
      | ok p =>
        rcases p with ⟨w, mw⟩
        simp only [update_metadata_combine]
      | error p =>
        rcases p with ⟨e, mw⟩
        simp only [update_metadata_combine]
    · rw [if_neg hp, if_neg hp]
      cases hcl : get_class_from_reflected_table_name sch m.dataset with
      | none => simp only [update_metadata_empty]
      | some table =>
        simp only []
        cases hat : get_attribute_from_reflected_table_name sch m.dataset m.column with
        | none => simp only [update_metadata_empty]
        | some column =>
          simp only []
          cases group with
          | none => rw [ih]
          | some g =>
            rcases g with ⟨t, i, vals⟩
            simp only []
            by_cases hflush : ¬i = "" ∧ (¬i = m.row ∨ ¬t = table)
            · rw [if_pos hflush, if_pos hflush, ih]
              cases hrec : loopChanges sch rest (some (table, m.row, Dict.single column m.value)) with
              | ok p =>
                rcases p with ⟨w, mw⟩
                simp only [overlayDB_combine, overlayDB_groupWrites]
              | error p => rfl
            · rw [if_neg hflush, if_neg hflush, ih]

/-- Store-level decomposition of `apply_changes`. -/
lemma apply_changes_decompose (sch : Schema) (msgs : List Message) (st : State) :
    apply_changes sch msgs st =
      match loopChanges sch msgs none with
      | .ok (w, mw) => (none, ⟨overlayDB w st.db, update_metadata st.meta mw⟩)
      | .error (e, mw) => (some e, ⟨st.db, update_metadata st.meta mw⟩) := by
  unfold apply_changes
  rw [applyLoop_decompose]
  cases loopChanges sch msgs none with
  | ok p => rcases p with ⟨w, mw⟩; rfl
  | error p => rcases p with ⟨e, mw⟩; rfl

/-- **C2**: for every ordered sequence of sync messages, invoking
`apply_changes` twice with the same sequence produces the same final
local-store state (and the same outcome) as invoking it once: re-applying
a record with the same `(dataset, row, column, value, timestamp)` changes
no observable state.  This holds with no proviso: even when the batch
fails mid-way, the second invocation fails identically and leaves the same
state. -/
theorem apply_changes_idempotent (sch : Schema) (msgs : List Message) (st : State) :
    apply_changes sch msgs (apply_changes sch msgs st).2 = apply_changes sch msgs st := by
  rw [apply_changes_decompose sch msgs st]
  cases h : loopChanges sch msgs none with
  | ok p =>
    rcases p with ⟨w, mw⟩
    simp only []
    rw [apply_changes_decompose, h]
    simp only [overlayDB_idem, update_metadata_idem]
  | error p =>
    rcases p with ⟨e, mw⟩
    simp only []
    rw [apply_changes_decompose, h]
    simp only [update_metadata_idem]

/-- The schema error `apply_changes` raises for a message: an unknown
dataset beats an unknown column. -/
def schemaErrorOf (sch : Schema) (m : Message) : ApplyError :=
  match get_class_from_reflected_table_name sch m.dataset with
  | none => .tableNotFound m.dataset
  | some _ => .columnNotFound m.dataset m.column

/-- A prefix the loop traverses without raising: every message is either a
`"prefs"` record or fully known to the schema. -/
def cleanPrefix (sch : Schema) (pre : List Message) : Prop :=
  ∀ m' ∈ pre, m'.dataset = "prefs" ∨ knownMsg sch m'

instance (sch : Schema) (pre : List Message) : Decidable (cleanPrefix sch pre) := by
  unfold cleanPrefix; infer_instance

lemma applyLoop_halts (sch : Schema) (m : Message) (post : List Message)
    (hm : ¬m.dataset = "prefs") (hbad : ¬knownMsg sch m) :
    ∀ (pre : List Message), cleanPrefix sch pre →
      ∀ (group : Group) (db : DB) (meta : Meta), ∃ meta',
        applyLoop sch (pre ++ m :: post) group db meta = .error (schemaErrorOf sch m, meta') := by
  intro pre
  induction pre with
  | nil =>
    intro _ group db meta
    refine ⟨meta, ?_⟩
    rw [List.nil_append]
    unfold applyLoop
    rw [if_neg hm]
    unfold schemaErrorOf
    cases hcl : get_class_from_reflected_table_name sch m.dataset with
    | none => rfl
    | some table =>
      simp only []
      cases hat : get_attribute_from_reflected_table_name sch m.dataset m.column with
      | none => rfl
      | some column =>
        exfalso
        exact hbad ⟨by rw [hcl]; rfl, by rw [hat]; rfl⟩
  | cons p pre' ih =>
    intro hclean group db meta
    have hp := hclean p (by simp)
    have hclean' : cleanPrefix sch pre' := by
      intro m' hm'; exact hclean m' (by simp [hm'])
    rw [List.cons_append]
    unfold applyLoop
    by_cases hpp : p.dataset = "prefs"
    · rw [if_pos hpp]
      exact ih hclean' group db (update_metadata meta (Dict.single p.row p.value))
    · rw [if_neg hpp]
      have hknown : knownMsg sch p := by
        rcases hp with hp | hp
        · exact absurd hp hpp
        · exact hp
      rw [get_class_eq_of_known hknown, get_attr_eq_of_known hknown]
      simp only []
      cases group with
      | none => exact ih hclean' _ db meta
      | some g =>
        rcases g with ⟨t, i, vals⟩
        simp only []
        by_cases hflush : ¬i = "" ∧ (¬i = p.row ∨ ¬t = p.dataset)
        · rw [if_pos hflush]
          exact ih hclean' _ (apply_change db t i vals) meta
        · rw [if_neg hflush]
          exact ih hclean' _ db meta

/-- **C3**: a sync message whose dataset has no corresponding known table,
or whose column is unknown for a known table, makes `apply_changes` raise
the schema error (`ActualError`), halts the batch at that record no matter
what follows, and leaves the relational store unmodified (the uncommitted
session writes are rolled back); the record is never silently dropped. -/
theorem apply_changes_unknown_schema_fatal (sch : Schema) (pre : List Message) (m : Message)
    (post : List Message) (st : State)
    (hpre : cleanPrefix sch pre) (hm : ¬m.dataset = "prefs") (hbad : ¬knownMsg sch m) :
    (apply_changes sch (pre ++ m :: post) st).1 = some (schemaErrorOf sch m) ∧
    (apply_changes sch (pre ++ m :: post) st).2.db = st.db := by
  obtain ⟨meta', hrun⟩ := applyLoop_halts sch m post hm hbad pre hpre none st.db st.meta
  unfold apply_changes
  rw [hrun]
  exact ⟨rfl, rfl⟩

/-- **C3 witness**: a batch with a clean `"prefs"` record followed by a
record for the unknown table `"nosuch"` errors out and leaves the
relational store untouched. -/
theorem apply_changes_unknown_schema_fatal_witness :
    cleanPrefix [("t", ["a"])] ([⟨"prefs", "k", "", Value.str "v", ⟨0, 0, "c"⟩⟩] : List Message) ∧
    ¬(⟨"nosuch", "R", "a", Value.int 1, ⟨0, 0, "c"⟩⟩ : Message).dataset = "prefs" ∧
    ¬knownMsg [("t", ["a"])] (⟨"nosuch", "R", "a", Value.int 1, ⟨0, 0, "c"⟩⟩ : Message) ∧
    ((apply_changes [("t", ["a"])]
        (([⟨"prefs", "k", "", Value.str "v", ⟨0, 0, "c"⟩⟩] : List Message) ++
          (⟨"nosuch", "R", "a", Value.int 1, ⟨0, 0, "c"⟩⟩ : Message) ::
            ([⟨"t", "R", "a", Value.int 7, ⟨0, 0, "c"⟩⟩] : List Message))
        ⟨fun _ _ _ => none, fun _ => none⟩).1
      = some (schemaErrorOf [("t", ["a"])] (⟨"nosuch", "R", "a", Value.int 1, ⟨0, 0, "c"⟩⟩ : Message)) ∧
     (apply_changes [("t", ["a"])]
        (([⟨"prefs", "k", "", Value.str "v", ⟨0, 0, "c"⟩⟩] : List Message) ++
          (⟨"nosuch", "R", "a", Value.int 1, ⟨0, 0, "c"⟩⟩ : Message) ::
            ([⟨"t", "R", "a", Value.int 7, ⟨0, 0, "c"⟩⟩] : List Message))
        ⟨fun _ _ _ => none, fun _ => none⟩).2.db
      = (⟨fun _ _ _ => none, fun _ => none⟩ : State).db) :=
  ⟨by decide, by decide, by decide,
    apply_changes_unknown_schema_fatal [("t", ["a"])] _ _ _ _ (by decide) (by decide) (by decide)⟩

/-- Step equation of the loop on the empty batch. -/
lemma applyLoop_nil_eq (sch : Schema) (group : Group) (db : DB) (meta : Meta) :
    applyLoop sch [] group db meta =
      match group with
      | some (t, i, vals) => .ok (apply_change db t i vals, meta)
      | none => .ok (db, meta) := rfl

/-- Step equation of the loop on a non-empty batch. -/
lemma applyLoop_cons_eq (sch : Schema) (m : Message) (rest : List Message)
    (group : Group) (db : DB) (meta : Meta) :
    applyLoop sch (m :: rest) group db meta =
      if m.dataset = "prefs" then
        applyLoop sch rest group db (update_metadata meta (Dict.single m.row m.value))
      else
        match get_class_from_reflected_table_name sch m.dataset with
        | none => .error (.tableNotFound m.dataset, meta)
        | some table =>
          match get_attribute_from_reflected_table_name sch m.dataset m.column with
          | none => .error (.columnNotFound m.dataset m.column, meta)
          | some column =>
            match group with
            | some (t, i, vals) =>
              if ¬i = "" ∧ (¬i = m.row ∨ ¬t = table) then
                applyLoop sch rest (some (table, m.row, Dict.single column m.value))
                  (apply_change db t i vals) meta
              else
                applyLoop sch rest (some (table, m.row, Dict.insert vals column m.value)) db meta
            | none =>
              applyLoop sch rest (some (table, m.row, Dict.single column m.value)) db meta := rfl

/-- The metadata-independent view of a loop outcome: the error, if any,
and the final relational store on success. -/
def dbOutcome : Except (ApplyError × Meta) (DB × Meta) → Option ApplyError × Option DB
  | .ok (db, _) => (none, some db)
  | .error (e, _) => (some e, none)

/-- The `"prefs"` records of a batch are invisible to the relational part
of the loop: dropping them (and starting from any metadata document)
changes neither the error outcome nor the final relational store. -/
lemma applyLoop_prefs_invisible (sch : Schema) (msgs : List Message) :
    ∀ (group : Group) (db : DB) (meta meta' : Meta),
      dbOutcome (applyLoop sch msgs group db meta) =
        dbOutcome (applyLoop sch (msgs.filter fun m => decide (¬m.dataset = "prefs")) group db meta') := by
  induction msgs with
  | nil =>
    intro group db meta meta'
    cases group with
    | some g => rcases g with ⟨t, i, vals⟩; rfl
    | none => rfl
  | cons m rest ih =>
    intro group db meta meta'
    rw [List.filter_cons]
    by_cases hp : m.dataset = "prefs"
    · rw [if_neg (by simp [hp])]
      rw [applyLoop_cons_eq, if_pos hp]
      exact ih group db (update_metadata meta (Dict.single m.row m.value)) meta'
    · rw [if_pos (by simp [hp])]
      rw [applyLoop_cons_eq sch m rest, applyLoop_cons_eq sch m
        (List.filter (fun m => decide (¬m.dataset = "prefs")) rest)]
      rw [if_neg hp, if_neg hp]
      cases hcl : get_class_from_reflected_table_name sch m.dataset with
      | none => rfl
      | some table =>
        simp only []
        cases hat : get_attribute_from_reflected_table_name sch m.dataset m.column with
        | none => rfl
        | some column =>
          simp only []
          cases group with
          | none => exact ih _ db meta meta'
          | some g =>
            rcases g with ⟨t, i, vals⟩
            simp only []
            by_cases hflush : ¬i = "" ∧ (¬i = m.row ∨ ¬t = table)
            · rw [if_pos hflush, if_pos hflush]
              exact ih _ (apply_change db t i vals) meta meta'
            · rw [if_neg hflush, if_neg hflush]
              exact ih _ db meta meta'

/-- On success the final metadata document is exactly the in-order merge
of the `{row: value}` patches of the `"prefs"` records of the batch. -/
lemma applyLoop_meta_of_ok (sch : Schema) (msgs : List Message) :
    ∀ (group : Group) (db : DB) (meta : Meta) (db' : DB) (meta' : Meta),
      applyLoop sch msgs group db meta = .ok (db', meta') →
      meta' = (msgs.filter fun m => decide (m.dataset = "prefs")).foldl
        (fun acc m => update_metadata acc (Dict.single m.row m.value)) meta := by
  induction msgs with
  | nil =>
    intro group db meta db' meta' h
    cases group with
    | some g =>
      rcases g with ⟨t, i, vals⟩
      unfold applyLoop at h
      simp only [Except.ok.injEq, Prod.mk.injEq] at h
      rw [← h.2]
      rfl
    | none =>
      unfold applyLoop at h
      simp only [Except.ok.injEq, Prod.mk.injEq] at h
      rw [← h.2]
      rfl
  | cons m rest ih =>
    intro group db meta db' meta' h
    rw [List.filter_cons]
    by_cases hp : m.dataset = "prefs"
    · rw [if_pos (by simp [hp])]
      rw [applyLoop_cons_eq, if_pos hp] at h
      rw [List.foldl_cons]
      exact ih group db (update_metadata meta (Dict.single m.row m.value)) db' meta' h
    · rw [if_neg (by simp [hp])]
      rw [applyLoop_cons_eq, if_neg hp] at h
      cases hcl : get_class_from_reflected_table_name sch m.dataset with
      | none => rw [hcl] at h; exact absurd h (by simp)
      | some table =>
        rw [hcl] at h
        simp only [] at h
        cases hat : get_attribute_from_reflected_table_name sch m.dataset m.column with
        | none => rw [hat] at h; exact absurd h (by simp)
        | some column =>
          rw [hat] at h
          simp only [] at h
          cases group with
          | none => exact ih _ db meta db' meta' h
          | some g =>
            rcases g with ⟨t, i, vals⟩
            simp only [] at h
            by_cases hflush : ¬i = "" ∧ (¬i = m.row ∨ ¬t = table)
            · rw [if_pos hflush] at h
              exact ih _ (apply_change db t i vals) meta db' meta' h
            · rw [if_neg hflush] at h
              exact ih _ db meta db' meta' h

/-- **C5**: `"prefs"` records never touch the relational store: the error
outcome and the final relational store of `apply_changes` are identical to
those of the batch with every `"prefs"` record removed; on success the
metadata document is the in-order merge of the `{row: value}` patches of
the `"prefs"` records, where each patch sets the key named by the record's
row to the record's value and preserves every other key. -/
theorem apply_changes_prefs_side_channel (sch : Schema) (msgs : List Message) (st : State)
    (hok : (apply_changes sch msgs st).1 = none) :
    (apply_changes sch msgs st).1 =
      (apply_changes sch (msgs.filter fun m => decide (¬m.dataset = "prefs")) st).1 ∧
    (apply_changes sch msgs st).2.db =
      (apply_changes sch (msgs.filter fun m => decide (¬m.dataset = "prefs")) st).2.db ∧
    (apply_changes sch msgs st).2.meta =
      (msgs.filter fun m => decide (m.dataset = "prefs")).foldl
        (fun acc m => update_metadata acc (Dict.single m.row m.value)) st.meta ∧
    (∀ (meta : Meta) (k : String) (v : Value),
      update_metadata meta (Dict.single k v) k = some v ∧
      ∀ k', ¬k' = k → update_metadata meta (Dict.single k v) k' = meta k') := by
  have hinv := applyLoop_prefs_invisible sch msgs none st.db st.meta st.meta
  unfold apply_changes at hok ⊢
  refine ⟨?_, ?_, ?_, ?_⟩
  · cases h1 : applyLoop sch msgs none st.db st.meta with
    | ok p =>
      rcases p with ⟨db1, meta1⟩
      rw [h1] at hinv
      cases h2 : applyLoop sch (msgs.filter fun m => decide (¬m.dataset = "prefs")) none st.db st.meta with
      | ok q => rfl
      | error q =>
        rcases q with ⟨e2, meta2⟩
        rw [h2] at hinv
        exact absurd hinv (by simp [dbOutcome])
    | error p =>
      rcases p with ⟨e1, meta1⟩
      rw [h1] at hok
      exact absurd hok (by simp)
  · cases h1 : applyLoop sch msgs none st.db st.meta with
    | ok p =>
      rcases p with ⟨db1, meta1⟩
      rw [h1] at hinv
      cases h2 : applyLoop sch (msgs.filter fun m => decide (¬m.dataset = "prefs")) none st.db st.meta with
      | ok q =>
        rcases q with ⟨db2, meta2⟩
        rw [h2] at hinv
        simp only [dbOutcome, Prod.mk.injEq, Option.some.injEq] at hinv
        exact hinv.2
      | error q =>
        rcases q with ⟨e2, meta2⟩
        rw [h2] at hinv
        exact absurd hinv (by simp [dbOutcome])
    | error p =>
      rcases p with ⟨e1, meta1⟩
      rw [h1] at hok
      exact absurd hok (by simp)
  · cases h1 : applyLoop sch msgs none st.db st.meta with
    | ok p =>
      rcases p with ⟨db1, meta1⟩
      simp only []
      exact applyLoop_meta_of_ok sch msgs none st.db st.meta db1 meta1 h1
    | error p =>
      rcases p with ⟨e1, meta1⟩
      rw [h1] at hok
      exact absurd hok (by simp)
  · intro meta k v
    constructor
    · unfold update_metadata Dict.single
      rw [if_pos rfl]
    · intro k' hk
      unfold update_metadata Dict.single
      rw [if_neg hk]

/-- **C5 witness**: a batch mixing a relational record and two `"prefs"`
records (the second overwriting the first's key). -/
theorem apply_changes_prefs_side_channel_witness :
    ((apply_changes [("t", ["a"])]
        ([⟨"prefs", "budgetName", "", Value.str "old", ⟨0, 0, "c"⟩⟩,
          ⟨"t", "R", "a", Value.int 5, ⟨0, 0, "c"⟩⟩,
          ⟨"prefs", "budgetName", "", Value.str "new", ⟨0, 0, "c"⟩⟩] : List Message)
        ⟨fun _ _ _ => none, fun _ => none⟩).1 = none) ∧
    ((apply_changes [("t", ["a"])]
        ([⟨"prefs", "budgetName", "", Value.str "old", ⟨0, 0, "c"⟩⟩,
          ⟨"t", "R", "a", Value.int 5, ⟨0, 0, "c"⟩⟩,
          ⟨"prefs", "budgetName", "", Value.str "new", ⟨0, 0, "c"⟩⟩] : List Message)
        ⟨fun _ _ _ => none, fun _ => none⟩).2.meta "budgetName" = some (Value.str "new")) ∧
    ((apply_changes [("t", ["a"])]
        ([⟨"prefs", "budgetName", "", Value.str "old", ⟨0, 0, "c"⟩⟩,
          ⟨"t", "R", "a", Value.int 5, ⟨0, 0, "c"⟩⟩,
          ⟨"prefs", "budgetName", "", Value.str "new", ⟨0, 0, "c"⟩⟩] : List Message)
        ⟨fun _ _ _ => none, fun _ => none⟩).2.db =
      (apply_changes [("t", ["a"])]
        (([⟨"prefs", "budgetName", "", Value.str "old", ⟨0, 0, "c"⟩⟩,
           ⟨"t", "R", "a", Value.int 5, ⟨0, 0, "c"⟩⟩,
           ⟨"prefs", "budgetName", "", Value.str "new", ⟨0, 0, "c"⟩⟩] : List Message).filter
          fun m => decide (¬m.dataset = "prefs"))
        ⟨fun _ _ _ => none, fun _ => none⟩).2.db) :=
  ⟨rfl, rfl,
    (apply_changes_prefs_side_channel [("t", ["a"])] _ _ (by decide)).2.1⟩

/-- The strict lexicographic order on timestamps as a proposition. -/
def Timestamp.lt (a b : Timestamp) : Prop :=
  a.millis < b.millis ∨
    (a.millis = b.millis ∧
      (a.counter < b.counter ∨ (a.counter = b.counter ∧ a.clientId < b.clientId)))

/-- The reflexive closure of `Timestamp.lt`. -/
def Timestamp.le (a b : Timestamp) : Prop := a = b ∨ a.lt b

instance (a b : Timestamp) : Decidable (a.lt b) := by unfold Timestamp.lt; infer_instance

instance (a b : Timestamp) : Decidable (a.le b) := by unfold Timestamp.le; infer_instance

lemma Timestamp.lt_trans {a b c : Timestamp} (h1 : a.lt b) (h2 : b.lt c) : a.lt c := by
  unfold Timestamp.lt at h1 h2 ⊢
  rcases h1 with h1 | ⟨e1, h1⟩ <;> rcases h2 with h2 | ⟨e2, h2⟩
  · exact Or.inl (Nat.lt_trans h1 h2)
  · exact Or.inl (e2 ▸ h1)
  · exact Or.inl (by rw [e1]; exact h2)
  · refine Or.inr ⟨e1.trans e2, ?_⟩
    rcases h1 with h1 | ⟨f1, h1⟩ <;> rcases h2 with h2 | ⟨f2, h2⟩
    · exact Or.inl (Nat.lt_trans h1 h2)
    · exact Or.inl (f2 ▸ h1)
    · exact Or.inl (by rw [f1]; exact h2)
    · exact Or.inr ⟨f1.trans f2, h1.trans h2⟩

lemma Timestamp.le_trans {a b c : Timestamp} (h1 : a.le b) (h2 : b.le c) : a.le c := by
  rcases h1 with rfl | h1
  · exact h2
  · rcases h2 with rfl | h2
    · exact Or.inr h1
    · exact Or.inr (Timestamp.lt_trans h1 h2)

/-- The largest timestamp observed in a backlog. -/
def backlogMax : List Message → Option Timestamp
  | [] => none
  | m :: rest =>
    match backlogMax rest with
    | none => some m.timestamp
    | some t => some (if m.timestamp.lt t then t else m.timestamp)

/-- A backlog delivered in non-decreasing timestamp order. -/
def tsSorted (msgs : List Message) : Prop :=
  List.Chain' (fun a b => a.timestamp.le b.timestamp) msgs

/-- In a sorted backlog, every timestamp is bounded by the last one. -/
lemma tsSorted_last_ge : ∀ (msgs : List Message) (mlast : Message),
    tsSorted msgs → msgs.getLast? = some mlast →
    ∀ m ∈ msgs, m.timestamp.le mlast.timestamp := by
  intro msgs
  induction msgs with
  | nil => intro mlast _ h; simp at h
  | cons a rest ih =>
    intro mlast hsort hlast m hm
    cases rest with
    | nil =>
      simp at hlast hm
      rw [hm, ← hlast]
      exact Or.inl rfl
    | cons b rest' =>
      rw [List.getLast?_cons_cons] at hlast
      unfold tsSorted at hsort
      rw [List.chain'_cons] at hsort
      rcases List.mem_cons.mp hm with rfl | hm'
      · have hb := ih mlast hsort.2 hlast b (by simp)
        exact Timestamp.le_trans hsort.1 hb
      · exact ih mlast hsort.2 hlast m hm'

/-- Modelled from the spec: the per-replica clock state
`ReplicaClock { clientId, lastTimestamp }` (`HULC_Client` in
`actual.protobuf_models`); `from_timestamp` builds the client state of the
client identity and time carried by a timestamp. -/
structure HULC_Client where
  client_id : String
  ts : Timestamp
deriving DecidableEq, Repr

/-- `HULC_Client.from_timestamp`. -/
def HULC_Client.from_timestamp (t : Timestamp) : HULC_Client := ⟨t.clientId, t⟩

/-- One replica: its observable store state, the in-memory client clock
(`self._client`) and the clock row persisted through
`get_or_create_clock` (modelled from the spec: the persisted
ReplicaClock). -/
structure Replica where
  state : State
  client : HULC_Client
  dbClock : HULC_Client

/-- `Actual.sync`, after the transport returned the decoded backlog
`msgs`: apply all changes, then — only when the backlog is non-empty —
replace the in-memory client with `HULC_Client.from_timestamp` of the
**last** message's timestamp and persist it.  The second component of the
result is the clock value written to the database in this round (`none`
when no write happened). -/
def sync (sch : Schema) (msgs : List Message) (r : Replica) :
    Except ApplyError (Replica × Option HULC_Client) :=
  match apply_changes sch msgs r.state with
  | (some e, _) => .error e
  | (none, st') =>
    match msgs.getLast? with
    | some mlast =>
      let c := HULC_Client.from_timestamp mlast.timestamp
      .ok (⟨st', c, c⟩, some c)
    | none => .ok (⟨st', r.client, r.dbClock⟩, none)

/-- **C10**: a sync round with an empty backlog leaves the replica exactly
as it was: the in-memory client clock is not replaced, no clock value is
written to the database, and the store state is unchanged. -/
theorem sync_empty_backlog_is_noop (sch : Schema) (r : Replica) :
    sync sch [] r = .ok (r, none) := rfl

/-- **C4 counterexample**: the claim as stated is false.  For a backlog
delivered newest-first (timestamps `2` then `1`), the clock written after
the round carries timestamp `1` — the fixed last element of the backlog —
which is strictly below the maximum timestamp `2` observed in the backlog,
so the persisted clock is not the result of the receive rule seeded with
the backlog maximum (that would have millis at least `2`). -/
theorem sync_clock_below_backlog_max :
    (sync [("t", ["a"])]
        ([⟨"t", "R", "a", Value.int 1, ⟨2, 0, "aa"⟩⟩,
          ⟨"t", "R", "a", Value.int 2, ⟨1, 0, "bb"⟩⟩] : List Message)
        ⟨⟨fun _ _ _ => none, fun _ => none⟩, ⟨"me", ⟨0, 0, "me"⟩⟩, ⟨"me", ⟨0, 0, "me"⟩⟩⟩).toOption.map
        (fun p => p.2)
      = some (some ⟨"bb", ⟨1, 0, "bb"⟩⟩) ∧
    backlogMax
        ([⟨"t", "R", "a", Value.int 1, ⟨2, 0, "aa"⟩⟩,
          ⟨"t", "R", "a", Value.int 2, ⟨1, 0, "bb"⟩⟩] : List Message) = some ⟨2, 0, "aa"⟩ ∧
    Timestamp.lt ⟨1, 0, "bb"⟩ ⟨2, 0, "aa"⟩ := by
  refine ⟨rfl, by decide, by decide⟩

/-- **C4** (amended): after every sync round that receives a non-empty
backlog and applies it successfully, the persisted replica clock (and the
in-memory client) is **replaced by the client carried by the timestamp of
the last message of the backlog** — a fixed element, with no receive-rule
merge against the local clock; this value is the maximum observed
timestamp exactly when the backlog arrives in non-decreasing timestamp
order. -/
theorem sync_clock_from_last_message (sch : Schema) (msgs : List Message) (r : Replica)
    (cw : HULC_Client)
    (h : (sync sch msgs r).toOption.map (fun p => p.2) = some (some cw)) :
    ∃ mlast, msgs.getLast? = some mlast ∧
      cw = HULC_Client.from_timestamp mlast.timestamp ∧
      (sync sch msgs r).toOption.map (fun p => (p.1.client, p.1.dbClock)) = some (cw, cw) ∧
      (tsSorted msgs → ∀ m ∈ msgs, m.timestamp.le mlast.timestamp) := by
  unfold sync at h ⊢
  cases happ : apply_changes sch msgs r.state with
  | mk err st' =>
    cases err with
    | some e =>
      rw [happ] at h
      simp [Except.toOption] at h
    | none =>
      rw [happ] at h
      cases hlast : msgs.getLast? with
      | none =>
        rw [hlast] at h
        simp [Except.toOption] at h
      | some mlast =>
        rw [hlast] at h
        have h2 : HULC_Client.from_timestamp mlast.timestamp = cw := by
          simpa [Except.toOption] using h
        subst h2
        exact ⟨mlast, rfl, rfl, rfl,
          fun hsort m hm => tsSorted_last_ge msgs mlast hsort hlast m hm⟩

/-- **C4 witness**: the amended theorem applied to a one-message backlog. -/
theorem sync_clock_from_last_message_witness :
    ((sync [("t", ["a"])]
        ([⟨"t", "R", "a", Value.int 9, ⟨5, 0, "aa"⟩⟩] : List Message)
        ⟨⟨fun _ _ _ => none, fun _ => none⟩, ⟨"me", ⟨0, 0, "me"⟩⟩,
          ⟨"me", ⟨0, 0, "me"⟩⟩⟩).toOption.map (fun p => p.2)
      = some (some ⟨"aa", ⟨5, 0, "aa"⟩⟩)) ∧
    (∃ mlast, ([⟨"t", "R", "a", Value.int 9, ⟨5, 0, "aa"⟩⟩] : List Message).getLast? = some mlast ∧
      (⟨"aa", ⟨5, 0, "aa"⟩⟩ : HULC_Client) = HULC_Client.from_timestamp mlast.timestamp ∧
      (sync [("t", ["a"])]
        ([⟨"t", "R", "a", Value.int 9, ⟨5, 0, "aa"⟩⟩] : List Message)
        ⟨⟨fun _ _ _ => none, fun _ => none⟩, ⟨"me", ⟨0, 0, "me"⟩⟩,
          ⟨"me", ⟨0, 0, "me"⟩⟩⟩).toOption.map (fun p => (p.1.client, p.1.dbClock))
        = some (⟨"aa", ⟨5, 0, "aa"⟩⟩, ⟨"aa", ⟨5, 0, "aa"⟩⟩) ∧
      (tsSorted ([⟨"t", "R", "a", Value.int 9, ⟨5, 0, "aa"⟩⟩] : List Message) →
        ∀ m ∈ ([⟨"t", "R", "a", Value.int 9, ⟨5, 0, "aa"⟩⟩] : List Message),
          m.timestamp.le mlast.timestamp)) :=
  ⟨rfl, sync_clock_from_last_message [("t", ["a"])]
    ([⟨"t", "R", "a", Value.int 9, ⟨5, 0, "aa"⟩⟩] : List Message)
    ⟨⟨fun _ _ _ => none, fun _ => none⟩, ⟨"me", ⟨0, 0, "me"⟩⟩, ⟨"me", ⟨0, 0, "me"⟩⟩⟩
    ⟨"aa", ⟨5, 0, "aa"⟩⟩ rfl⟩

/-- The remote file record (`RemoteFileListDTO`) as far as these claims
need it: the file id, the sync group id and the encryption key id. -/
structure RemoteFile where
  file_id : String
  group_id : Option String
  encrypt_key_id : Option String
deriving DecidableEq, Repr

/-- `actual.crypto.create_key_buffer(password, salt)`.  Modelled from the
spec: a deterministic password-based derivation (PBKDF2-HMAC per the
source docstring) that is a total function of the `(password, salt)` pair;
PBKDF2 accepts any password, including the empty string, so no failure is
possible here.  The concrete bytes are irrelevant to the claims; an
injective stand-in encoding is used. -/
def create_key_buffer (password salt : String) : String :=
  "pbkdf2:" ++ toString password.length ++ ":" ++ password ++ ":" ++ salt

/-- `ActualDecryptionError` (the spec's `KeyDerivationError` for this
path). -/
inductive DecryptionError where
  | missingPassword : DecryptionError
deriving DecidableEq, Repr

/-- `Actual.download_master_encryption_key`: raise when the file has an
encryption key id but the password argument is `None`; derive the key from
the salt when a password is given and the file has a key id; otherwise
return the pre-existing master key (`self._master_key`). -/
def download_master_encryption_key (file : RemoteFile)
    (encryption_password : Option String) (salt : String)
    (master_key0 : Option String) : Except DecryptionError (Option String) :=
  if optTruthy file.encrypt_key_id = true ∧ encryption_password = none then
    .error .missingPassword
  else
    match encryption_password with
    | some pw =>
      if optTruthy file.encrypt_key_id = true then
        .ok (some (create_key_buffer pw salt))
      else .ok master_key0
    | none => .ok master_key0

/-- **C7 counterexample**: the claim as stated is false.  For a file
marked encrypted (`encrypt_key_id` present), calling the key download with
the **empty string** as password does not fail: the guard only checks
`encryption_password is None`, so the empty password passes the check and
a master key is derived and returned. -/
theorem download_key_empty_password_succeeds :
    download_master_encryption_key ⟨"f", some "g", some "k"⟩ (some "") "salt" none
      = .ok (some (create_key_buffer "" "salt")) ∧
    (download_master_encryption_key ⟨"f", some "g", some "k"⟩ (some "") "salt" none).isOk = true := by
  exact ⟨rfl, rfl⟩

/-- **C7** (amended): for a replica marked encrypted (the loaded file has
a truthy encryption key id), `download_master_encryption_key` fails with
`ActualDecryptionError` exactly when the supplied password is **absent**
(`None`); any present password — the empty string included — is accepted
and deterministically derives and returns a master key from the password
and the remote salt. -/
theorem download_key_requires_present_password (file : RemoteFile) (salt : String)
    (master_key0 : Option String) (h : optTruthy file.encrypt_key_id = true) :
    download_master_encryption_key file none salt master_key0 = .error .missingPassword ∧
    ∀ pw, download_master_encryption_key file (some pw) salt master_key0
      = .ok (some (create_key_buffer pw salt)) := by
  constructor
  · unfold download_master_encryption_key
    rw [if_pos ⟨h, rfl⟩]
  · intro pw
    unfold download_master_encryption_key
    rw [if_neg (by intro hcontra; exact absurd hcontra.2 (by simp))]
    simp only []
    rw [if_pos h]

/-- **C7 witness**: the amended theorem at a concrete encrypted file. -/
theorem download_key_requires_present_password_witness :
    optTruthy (⟨"f", some "g", some "k"⟩ : RemoteFile).encrypt_key_id = true ∧
    (download_master_encryption_key ⟨"f", some "g", some "k"⟩ none "salt" none
        = .error .missingPassword ∧
      ∀ pw, download_master_encryption_key ⟨"f", some "g", some "k"⟩ (some pw) "salt" none
        = .ok (some (create_key_buffer pw "salt"))) :=
  ⟨by decide, download_key_requires_present_password ⟨"f", some "g", some "k"⟩ "salt" none (by decide)⟩

/-- The outgoing sync request assembled by `Actual.commit`
(`SyncRequest` with `fileId`, `groupId`, optional `keyId` and the pending
messages). -/
structure SyncRequest where
  fileId : String
  groupId : Option String
  keyId : Option String
  messages : List Message
deriving DecidableEq, Repr

/-- The tracked session info of the open editing session: the pending
messages recorded by the ORM hooks (`self._session.info["messages"]`,
absent when nothing was recorded). -/
structure SessionInfo where
  info_messages : Option (List Message)
deriving DecidableEq, Repr

/-- The error `commit` raises when no session exists. -/
inductive CommitError where
  | noSession : CommitError
deriving DecidableEq, Repr

/-- The observable outcome of `Actual.commit`: whether the local database
commit ran, and the sync request transmitted to the relay (`none` when the
send was skipped). -/
structure CommitOutcome where
  localCommitted : Bool
  sentRequest : Option SyncRequest
deriving DecidableEq, Repr

/-- `Actual.commit`: raise without a session; otherwise flush and commit
the local database, build the request from the tracked messages (with the
key id only when the file has one), and send it to the relay **only when
the file has a truthy group id**. -/
def commit (session : Option SessionInfo) (file : RemoteFile) :
    Except CommitError CommitOutcome :=
  match session with
  | none => .error .noSession
  | some sess =>
    let req : SyncRequest :=
      ⟨file.file_id, file.group_id,
        if optTruthy file.encrypt_key_id = true then file.encrypt_key_id else none,
        sess.info_messages.getD []⟩
    .ok ⟨true, if optTruthy file.group_id = true then some req else none⟩

/-- **C8**: when the replica's group identifier is null/absent (falsy),
`commit` performs the local database commit but skips the send entirely:
no sync request is transmitted and no error is raised — the edits remain
local only. -/
theorem commit_without_group_id_skips_send (sess : SessionInfo) (file : RemoteFile)
    (h : optTruthy file.group_id = false) :
    commit (some sess) file = .ok ⟨true, none⟩ := by
  unfold commit
  simp only []
  rw [if_neg (by rw [h]; simp)]

/-- **C8 witness**: a commit of one pending message on a file that was
never registered remotely (`group_id = none`). -/
theorem commit_without_group_id_skips_send_witness :
    optTruthy (⟨"f", none, none⟩ : RemoteFile).group_id = false ∧
    commit (some ⟨some [⟨"t", "R", "a", Value.int 1, ⟨0, 0, "c"⟩⟩]⟩) ⟨"f", none, none⟩
      = .ok ⟨true, none⟩ :=
  ⟨by decide, commit_without_group_id_skips_send ⟨some [⟨"t", "R", "a", Value.int 1, ⟨0, 0, "c"⟩⟩]⟩
    ⟨"f", none, none⟩ (by decide)⟩

/-- One raw external (bank-feed) transaction, as the bank-sync endpoint
returns it (`date`, `payeeName`, `notes`, `transactionAmount.amount` in
cents, `transactionId`, `booked`).  Dates are modelled as day numbers. -/
structure BankTransaction where
  date : Int
  payee_name : Option String
  notes : Option String
  amount : Int
  transaction_id : String
  booked : Bool
deriving DecidableEq, Repr

/-- The bank-sync response: the reported balance (cents) and the raw
transactions (`data.transactions.all`), in the feed's delivered order. -/
structure BankSyncResponse where
  balance : Int
  transactions_all : List BankTransaction
deriving DecidableEq, Repr

/-- The fields of an `Accounts` row that drive the reconciliation. -/
structure Accounts where
  offbudget : Bool
  account_sync_source : Option String
deriving DecidableEq, Repr

/-- One transaction row of the local ledger of the synchronized account.
`financial_id` is the imported id; `starting_balance_flag` marks a
synthesized starting-balance entry. -/
structure LocalTransaction where
  date : Int
  payee : Option String
  notes : Option String
  amount : Int
  financial_id : Option String
  cleared : Bool
  starting_balance_flag : Bool
deriving DecidableEq, Repr

/-- ASCII lower-casing of one character (`str.lower()` on the ASCII range
relevant to sync-source names). -/
def lowerChar (c : Char) : Char :=
  if 65 ≤ c.toNat ∧ c.toNat ≤ 90 then Char.ofNat (c.toNat + 32) else c

/-- ASCII lower-casing of a string (Python's `str.lower()` for the ASCII
source names compared here). -/
def lowerString (s : String) : String := ⟨s.data.map lowerChar⟩

/-- `acct.account_sync_source and acct.account_sync_source.lower() ==
"simplefin"`. -/
def isSimplefin (acct : Accounts) : Bool :=
  optTruthy acct.account_sync_source && (lowerString (acct.account_sync_source.getD "") == "simplefin")

/-- The starting balance used on the first sync: for simpleFin the
reported balance is the current balance, so the sum of all delivered
transaction amounts (booked or not) is subtracted; every other source uses
the reported balance as-is. -/
def balance_to_use (acct : Accounts) (resp : BankSyncResponse) : Int :=
  if isSimplefin acct then
    resp.balance - (resp.transactions_all.map (fun t => t.amount)).sum
  else resp.balance

/-- Modelled from the spec: the first pass of `reconcile_transaction` —
find the first ledger entity carrying this imported id that was not
already matched during this run. -/
def matchByImportedId (iid : String) (already : List LocalTransaction) :
    List LocalTransaction → Option LocalTransaction
  | [] => none
  | e :: rest =>
    if e.financial_id = some iid ∧ ¬e ∈ already then some e
    else matchByImportedId iid already rest

/-- Modelled from the spec: the fuzzy pass of `reconcile_transaction` —
the first not-yet-matched ledger entity without an imported id whose
amount and payee agree and whose date lies within a seven-day window is
stamped with the imported id; returns the stamped entity and the rewritten
ledger. -/
def fuzzyMatchStamp (date : Int) (payee : String) (amount : Int) (iid : String)
    (cleared : Bool) (already : List LocalTransaction) :
    List LocalTransaction → Option (LocalTransaction × List LocalTransaction)
  | [] => none
  | e :: rest =>
    if e.financial_id = none ∧ ¬e ∈ already ∧ e.amount = amount ∧
        e.payee = some payee ∧ (e.date - date).natAbs ≤ 7 then
      some ({ e with financial_id := some iid, cleared := cleared },
        { e with financial_id := some iid, cleared := cleared } :: rest)
    else
      match fuzzyMatchStamp date payee amount iid cleared already rest with
      | some (x, rest') => some (x, e :: rest')
      | none => none

/-- `actual.queries.reconcile_transaction`.  Modelled from the spec
(section 4.6): match by imported id first; otherwise fuzzy-match an
unmatched entity; otherwise create a new entity; never create two local
entities for the same imported id.  Returns the entity, whether it counts
as changed (newly created or newly matched), and the updated ledger. -/
def reconcile_transaction (ledger : List LocalTransaction) (date : Int) (payee : String)
    (notes : Option String) (amount : Int) (iid : String) (cleared : Bool)
    (already_matched : List LocalTransaction) :
    LocalTransaction × Bool × List LocalTransaction :=
  match matchByImportedId iid already_matched ledger with
  | some e => (e, false, ledger)
  | none =>
    match fuzzyMatchStamp date payee amount iid cleared already_matched ledger with
    | some (e', ledger') => (e', true, ledger')
    | none =>
      (⟨date, some payee, notes, amount, some iid, cleared, false⟩, true,
        ledger ++ [⟨date, some payee, notes, amount, some iid, cleared, false⟩])

/-- The import loop of `_run_bank_sync_account` over the reversed feed:
unbooked transactions are skipped outright; booked ones are reconciled
against the ledger with the already-imported entities excluded from
matching, and appended to the imported list when they changed local
state. -/
def bankSyncLoop : List BankTransaction → List LocalTransaction → List LocalTransaction →
    List LocalTransaction × List LocalTransaction
  | [], imported, ledger => (imported, ledger)
  | t :: rest, imported, ledger =>
    if t.booked = false then bankSyncLoop rest imported ledger
    else
      match reconcile_transaction ledger t.date (t.payee_name.getD "") t.notes t.amount
          t.transaction_id t.booked imported with
      | (rec, changed, ledger') =>
        bankSyncLoop rest (if changed then imported ++ [rec] else imported) ledger'

/-- The starting-balance entry synthesized on the first sync: dated at the
last transaction of the delivered feed (`new_transactions[-1]`, `today`
when the feed is empty), attributed to the `"Starting Balance"` payee
unless the account is off-budget, with the computed starting balance as
amount, cleared, and carrying the starting-balance flag. -/
def startingTransaction (acct : Accounts) (resp : BankSyncResponse) (today : Int) :
    LocalTransaction :=
  ⟨match resp.transactions_all.getLast? with
    | some t => t.date
    | none => today,
   if acct.offbudget then none else some "Starting Balance",
   none, balance_to_use acct resp, none, true, true⟩

/-- `Actual._run_bank_sync_account`, after the transport returned `resp`:
on the first sync with a non-zero starting balance, synthesize one
starting-balance entry (`create_transaction` and `get_or_create_payee`
are modelled from the spec), then consume the reversed feed.  Returns the
imported transactions and the final ledger. -/
def run_bank_sync_account (acct : Accounts) (resp : BankSyncResponse)
    (is_first_sync : Bool) (today : Int) (ledger : List LocalTransaction) :
    List LocalTransaction × List LocalTransaction :=
  if is_first_sync = true ∧ ¬balance_to_use acct resp = 0 then
    bankSyncLoop resp.transactions_all.reverse
      [startingTransaction acct resp today]
      (ledger ++ [startingTransaction acct resp today])
  else
    bankSyncLoop resp.transactions_all.reverse [] ledger

lemma matchByImportedId_mem (iid : String) (already : List LocalTransaction) :
    ∀ (l : List LocalTransaction) (e : LocalTransaction),
      matchByImportedId iid already l = some e → e ∈ l ∧ e.financial_id = some iid := by
  intro l
  induction l with
  | nil => intro e h; simp [matchByImportedId] at h
  | cons a rest ih =>
    intro e h
    unfold matchByImportedId at h
    by_cases hc : a.financial_id = some iid ∧ ¬a ∈ already
    · rw [if_pos hc] at h
      injection h with h
      subst h
      exact ⟨by simp, hc.1⟩
    · rw [if_neg hc] at h
      obtain ⟨h1, h2⟩ := ih e h
      exact ⟨by simp [h1], h2⟩

lemma fuzzyMatchStamp_decomp (date : Int) (payee : String) (amount : Int) (iid : String)
    (cleared : Bool) (already : List LocalTransaction) :
    ∀ (l : List LocalTransaction) (e' : LocalTransaction) (l' : List LocalTransaction),
      fuzzyMatchStamp date payee amount iid cleared already l = some (e', l') →
      ∃ l1 e l2, l = l1 ++ e :: l2 ∧ l' = l1 ++ e' :: l2 ∧
        e.financial_id = none ∧ ¬e ∈ already ∧
        e' = { e with financial_id := some iid, cleared := cleared } := by
  intro l
  induction l with
  | nil => intro e' l' h; simp [fuzzyMatchStamp] at h
  | cons a rest ih =>
    intro e' l' h
    unfold fuzzyMatchStamp at h
    by_cases hc : a.financial_id = none ∧ ¬a ∈ already ∧ a.amount = amount ∧
        a.payee = some payee ∧ (a.date - date).natAbs ≤ 7
    · rw [if_pos hc] at h
      simp only [Option.some.injEq, Prod.mk.injEq] at h
      refine ⟨[], a, rest, by simp, ?_, hc.1, hc.2.1, h.1.symm⟩
      rw [List.nil_append, ← h.1, ← h.2]
    · rw [if_neg hc] at h
      cases hrec : fuzzyMatchStamp date payee amount iid cleared already rest with
      | none => rw [hrec] at h; exact absurd h (by simp)
      | some p =>
        rcases p with ⟨x, rest'⟩
        rw [hrec] at h
        simp only [Option.some.injEq, Prod.mk.injEq] at h
        obtain ⟨l1, e, l2, hl, hl', hfid, hnin, he'⟩ := ih x rest' hrec
        refine ⟨a :: l1, e, l2, by rw [List.cons_append, ← hl], ?_, hfid, hnin, ?_⟩
        · rw [← h.2, List.cons_append, hl', h.1]
        · rw [← h.1]; exact he'

/-- What `reconcile_transaction` can put into the ledger and report:
everything new carries the reconciled imported id. -/
lemma reconcile_transaction_entities (ledger : List LocalTransaction) (date : Int)
    (payee : String) (notes : Option String) (amount : Int) (iid : String) (cleared : Bool)
    (already : List LocalTransaction) (rec : LocalTransaction) (changed : Bool)
    (l' : List LocalTransaction)
    (h : reconcile_transaction ledger date payee notes amount iid cleared already
      = (rec, changed, l')) :
    (rec ∈ ledger ∨ rec.financial_id = some iid) ∧
    (∀ x ∈ l', x ∈ ledger ∨ x.financial_id = some iid) := by
  unfold reconcile_transaction at h
  cases hm : matchByImportedId iid already ledger with
  | some e =>
    rw [hm] at h
    obtain ⟨hmem, _⟩ := matchByImportedId_mem iid already ledger e hm
    simp only [Prod.mk.injEq] at h
    constructor
    · rw [← h.1]; exact Or.inl hmem
    · intro x hx
      rw [← h.2.2] at hx
      exact Or.inl hx
  | none =>
    rw [hm] at h
    cases hf : fuzzyMatchStamp date payee amount iid cleared already ledger with
    | some p =>
      rcases p with ⟨e', ledger'⟩
      rw [hf] at h
      simp only [Prod.mk.injEq] at h
      obtain ⟨l1, e, l2, hl, hl', _, _, he'⟩ :=
        fuzzyMatchStamp_decomp date payee amount iid cleared already ledger e' ledger' hf
      have he'fid : e'.financial_id = some iid := by rw [he']
      constructor
      · rw [← h.1]; exact Or.inr he'fid
      · intro x hx
        rw [← h.2.2, hl'] at hx
        rcases List.mem_append.mp hx with hx | hx
        · exact Or.inl (by rw [hl]; exact List.mem_append.mpr (Or.inl hx))
        · rcases List.mem_cons.mp hx with rfl | hx
          · exact Or.inr he'fid
          · exact Or.inl (by rw [hl]; exact List.mem_append.mpr (Or.inr (by simp [hx])))
    | none =>
      rw [hf] at h
      simp only [Prod.mk.injEq] at h
      constructor
      · rw [← h.1]; exact Or.inr rfl
      · intro x hx
        rw [← h.2.2] at hx
        rcases List.mem_append.mp hx with hx | hx
        · exact Or.inl hx
        · rcases List.mem_cons.mp hx with rfl | hx
          · exact Or.inr rfl
          · exact absurd hx (by simp)

/-- `reconcile_transaction` never flags anything as a starting balance:
when exactly one flagged entity exists and it is excluded from matching
(it is in `already`), the flagged entities of the ledger are unchanged and
a changed result is unflagged. -/
lemma reconcile_transaction_flags (ledger : List LocalTransaction) (date : Int)
    (payee : String) (notes : Option String) (amount : Int) (iid : String) (cleared : Bool)
    (already : List LocalTransaction) (st : LocalTransaction)
    (hstin : st ∈ already)
    (hled : ledger.filter (fun e => e.starting_balance_flag) = [st])
    (rec : LocalTransaction) (changed : Bool) (l' : List LocalTransaction)
    (h : reconcile_transaction ledger date payee notes amount iid cleared already
      = (rec, changed, l')) :
    l'.filter (fun e => e.starting_balance_flag) = [st] ∧
    (changed = true → rec.starting_balance_flag = false) := by
  unfold reconcile_transaction at h
  cases hm : matchByImportedId iid already ledger with
  | some e =>
    rw [hm] at h
    simp only [Prod.mk.injEq] at h
    refine ⟨by rw [← h.2.2]; exact hled, ?_⟩
    intro hch
    rw [← h.2.1] at hch
    exact absurd hch (by simp)
  | none =>
    rw [hm] at h
    cases hf : fuzzyMatchStamp date payee amount iid cleared already ledger with
    | some p =>
      rcases p with ⟨e', ledger'⟩
      rw [hf] at h
      simp only [Prod.mk.injEq] at h
      obtain ⟨l1, e, l2, hl, hl', _, hnin, he'⟩ :=
        fuzzyMatchStamp_decomp date payee amount iid cleared already ledger e' ledger' hf
      have heflag : e.starting_balance_flag = false := by
        by_contra hcontra
        have hmem : e ∈ ledger.filter (fun x => x.starting_balance_flag) := by
          rw [List.mem_filter]
          exact ⟨by rw [hl]; simp, by simpa using hcontra⟩
        rw [hled] at hmem
        have : e = st := by simpa using hmem
        exact hnin (this ▸ hstin)
      have he'flag : e'.starting_balance_flag = false := by rw [he']; exact heflag
      constructor
      · rw [← h.2.2, hl']
        rw [hl] at hled
        rw [List.filter_append] at hled ⊢
        rw [List.filter_cons] at hled ⊢
        rw [if_neg (by simp [heflag])] at hled
        rw [if_neg (by simp [he'flag])]
        exact hled
      · intro _
        rw [← h.1]
        exact he'flag
    | none =>
      rw [hf] at h
      simp only [Prod.mk.injEq] at h
      constructor
      · rw [← h.2.2, List.filter_append, hled]
        rw [List.filter_cons]
        rw [if_neg (by simp)]
        simp
      · intro _
        rw [← h.1]

/-- Step equation of the import loop on a non-empty feed. -/
lemma bankSyncLoop_cons_eq (t : BankTransaction) (rest : List BankTransaction)
    (imported ledger : List LocalTransaction) :
    bankSyncLoop (t :: rest) imported ledger =
      if t.booked = false then bankSyncLoop rest imported ledger
      else
        match reconcile_transaction ledger t.date (t.payee_name.getD "") t.notes t.amount
            t.transaction_id t.booked imported with
        | (rec, changed, ledger') =>
          bankSyncLoop rest (if changed then imported ++ [rec] else imported) ledger' := rfl

/-- The import loop on any feed equals the import loop on the booked
transactions alone: unbooked entries are skipped outright, no
reconciliation is ever attempted for them. -/
lemma bankSyncLoop_skips_unbooked : ∀ (txns : List BankTransaction)
    (imported ledger : List LocalTransaction),
    bankSyncLoop txns imported ledger
      = bankSyncLoop (txns.filter fun x => x.booked) imported ledger := by
  intro txns
  induction txns with
  | nil => intro imported ledger; rfl
  | cons t rest ih =>
    intro imported ledger
    rw [List.filter_cons]
    by_cases hb : t.booked = true
    · rw [if_pos (by simpa using hb)]
      rw [bankSyncLoop_cons_eq t rest, bankSyncLoop_cons_eq t (rest.filter fun x => x.booked)]
      rw [if_neg (by simp [hb]), if_neg (by simp [hb])]
      cases hrec : reconcile_transaction ledger t.date (t.payee_name.getD "") t.notes t.amount
          t.transaction_id t.booked imported with
      | mk rec p =>
        rcases p with ⟨changed, ledger'⟩
        exact ih _ _
    · rw [if_neg (by simpa using hb)]
      rw [bankSyncLoop_cons_eq, if_pos (by revert hb; cases t.booked <;> simp)]
      exact ih imported ledger

/-- If no booked transaction of the feed carries the imported id `tid` and
no accumulated entity carries it either, then no entity of the loop's
output carries it. -/
lemma bankSyncLoop_avoids_id (tid : String) : ∀ (txns : List BankTransaction)
    (imported ledger : List LocalTransaction),
    (∀ x ∈ txns, x.booked = true → ¬x.transaction_id = tid) →
    (∀ e ∈ imported, ¬e.financial_id = some tid) →
    (∀ e ∈ ledger, ¬e.financial_id = some tid) →
    (∀ e ∈ (bankSyncLoop txns imported ledger).1, ¬e.financial_id = some tid) ∧
    (∀ e ∈ (bankSyncLoop txns imported ledger).2, ¬e.financial_id = some tid) := by
  intro txns
  induction txns with
  | nil => intro imported ledger _ himp hled; exact ⟨himp, hled⟩
  | cons t rest ih =>
    intro imported ledger htxns himp hled
    rw [bankSyncLoop_cons_eq]
    by_cases hb : t.booked = false
    · rw [if_pos hb]
      exact ih imported ledger (fun x hx hbx => htxns x (by simp [hx]) hbx) himp hled
    · rw [if_neg hb]
      cases hrec : reconcile_transaction ledger t.date (t.payee_name.getD "") t.notes t.amount
          t.transaction_id t.booked imported with
      | mk rec p =>
        rcases p with ⟨changed, ledger'⟩
        simp only []
        have hbt : t.booked = true := by revert hb; cases t.booked <;> simp
        have hne : ¬t.transaction_id = tid := htxns t (by simp) hbt
        obtain ⟨hrec1, hrec2⟩ := reconcile_transaction_entities ledger t.date
          (t.payee_name.getD "") t.notes t.amount t.transaction_id t.booked imported
          rec changed ledger' hrec
        have hled' : ∀ e ∈ ledger', ¬e.financial_id = some tid := by
          intro e he
          rcases hrec2 e he with he' | he'
          · exact hled e he'
          · rw [he']
            intro hcontra
            injection hcontra with hcontra
            exact hne hcontra
        have hrecavoid : ¬rec.financial_id = some tid := by
          rcases hrec1 with hr | hr
          · exact hled rec hr
          · rw [hr]
            intro hcontra
            injection hcontra with hcontra
            exact hne hcontra
        have himp' : ∀ e ∈ (if changed then imported ++ [rec] else imported),
            ¬e.financial_id = some tid := by
          by_cases hch : changed = true
          · rw [if_pos hch]
            intro e he
            rcases List.mem_append.mp he with he' | he'
            · exact himp e he'
            · have he2 : e = rec := by simpa using he'
              rw [he2]
              exact hrecavoid
          · rw [if_neg hch]
            exact himp
        exact ih _ ledger' (fun x hx hbx => htxns x (by simp [hx]) hbx) himp' hled'

/-- If the single flagged entity `st` is among the already-imported ones,
the loop never adds another starting-balance entry: `st` stays the unique
flagged entity of both outputs. -/
lemma bankSyncLoop_keeps_single_flag (st : LocalTransaction) :
    ∀ (txns : List BankTransaction) (imported ledger : List LocalTransaction),
    st ∈ imported →
    imported.filter (fun e => e.starting_balance_flag) = [st] →
    ledger.filter (fun e => e.starting_balance_flag) = [st] →
    (bankSyncLoop txns imported ledger).1.filter (fun e => e.starting_balance_flag) = [st] ∧
    (bankSyncLoop txns imported ledger).2.filter (fun e => e.starting_balance_flag) = [st] := by
  intro txns
  induction txns with
  | nil => intro imported ledger _ himp hled; exact ⟨himp, hled⟩
  | cons t rest ih =>
    intro imported ledger hstin himp hled
    rw [bankSyncLoop_cons_eq]
    by_cases hb : t.booked = false
    · rw [if_pos hb]
      exact ih imported ledger hstin himp hled
    · rw [if_neg hb]
      cases hrec : reconcile_transaction ledger t.date (t.payee_name.getD "") t.notes t.amount
          t.transaction_id t.booked imported with
      | mk rec p =>
        rcases p with ⟨changed, ledger'⟩
        simp only []
        obtain ⟨hled', hrecflag⟩ := reconcile_transaction_flags ledger t.date
          (t.payee_name.getD "") t.notes t.amount t.transaction_id t.booked imported st
          hstin hled rec changed ledger' hrec
        have hstin' : st ∈ (if changed then imported ++ [rec] else imported) := by
          by_cases hch : changed = true
          · rw [if_pos hch]
            exact List.mem_append.mpr (Or.inl hstin)
          · rw [if_neg hch]
            exact hstin
        have himp' : (if changed then imported ++ [rec] else imported).filter
            (fun e => e.starting_balance_flag) = [st] := by
          by_cases hch : changed = true
          · rw [if_pos hch, List.filter_append, himp, List.filter_cons]
            rw [if_neg (by simp [hrecflag hch])]
            simp
          · rw [if_neg hch]
            exact himp
        exact ih _ ledger' hstin' himp' hled'

/-- **C9**: an external transaction whose `booked` flag is false is never
imported: the import loop is identical to the loop over the booked
transactions alone (no reconciliation is attempted for unbooked entries),
and — provided no booked transaction and no pre-existing ledger entity
carries the same imported id — no entity of the run's output carries that
transaction's id.  The statement holds for arbitrary initial ledgers, so
it covers the first run and every repeated run. -/
theorem bank_sync_never_imports_unbooked (acct : Accounts) (resp : BankSyncResponse)
    (is_first_sync : Bool) (today : Int) (ledger : List LocalTransaction)
    (t : BankTransaction) (ht : t ∈ resp.transactions_all) (hb : t.booked = false)
    (hothers : ∀ x ∈ resp.transactions_all, x.booked = true →
      ¬x.transaction_id = t.transaction_id)
    (hledger : ∀ e ∈ ledger, ¬e.financial_id = some t.transaction_id) :
    (∀ (txns : List BankTransaction) (imported led : List LocalTransaction),
      bankSyncLoop txns imported led
        = bankSyncLoop (txns.filter fun x => x.booked) imported led) ∧
    (∀ e ∈ (run_bank_sync_account acct resp is_first_sync today ledger).1,
      ¬e.financial_id = some t.transaction_id) ∧
    (∀ e ∈ (run_bank_sync_account acct resp is_first_sync today ledger).2,
      ¬e.financial_id = some t.transaction_id) := by
  have hrev : ∀ x ∈ resp.transactions_all.reverse, x.booked = true →
      ¬x.transaction_id = t.transaction_id := by
    intro x hx
    exact hothers x (List.mem_reverse.mp hx)
  refine ⟨bankSyncLoop_skips_unbooked, ?_⟩
  unfold run_bank_sync_account
  by_cases hfirst : is_first_sync = true ∧ ¬balance_to_use acct resp = 0
  · rw [if_pos hfirst]
    have hst : ¬(startingTransaction acct resp today).financial_id
        = some t.transaction_id := by
      intro hcontra
      exact Option.noConfusion hcontra
    refine bankSyncLoop_avoids_id t.transaction_id resp.transactions_all.reverse
      [startingTransaction acct resp today]
      (ledger ++ [startingTransaction acct resp today]) hrev ?_ ?_
    · intro e he
      have he2 : e = startingTransaction acct resp today := by simpa using he
      rw [he2]
      exact hst
    · intro e he
      rcases List.mem_append.mp he with he' | he'
      · exact hledger e he'
      · have he2 : e = startingTransaction acct resp today := by simpa using he'
        rw [he2]
        exact hst
  · rw [if_neg hfirst]
    exact bankSyncLoop_avoids_id t.transaction_id resp.transactions_all.reverse [] ledger
      hrev (by intro e he; simp at he) hledger

/-- **C9 witness**: a feed with one unbooked and one booked transaction on
a fresh account. -/
theorem bank_sync_never_imports_unbooked_witness :
    (⟨5, some "P", none, -100, "u1", false⟩ : BankTransaction) ∈
      (⟨1000, [⟨5, some "P", none, -100, "u1", false⟩,
        ⟨6, some "Q", none, -200, "b1", true⟩]⟩ : BankSyncResponse).transactions_all ∧
    (⟨5, some "P", none, -100, "u1", false⟩ : BankTransaction).booked = false ∧
    (∀ x ∈ (⟨1000, [⟨5, some "P", none, -100, "u1", false⟩,
        ⟨6, some "Q", none, -200, "b1", true⟩]⟩ : BankSyncResponse).transactions_all,
      x.booked = true → ¬x.transaction_id
        = (⟨5, some "P", none, -100, "u1", false⟩ : BankTransaction).transaction_id) ∧
    ((∀ (txns : List BankTransaction) (imported led : List LocalTransaction),
        bankSyncLoop txns imported led
          = bankSyncLoop (txns.filter fun x => x.booked) imported led) ∧
      (∀ e ∈ (run_bank_sync_account ⟨false, some "goCardless"⟩
          ⟨1000, [⟨5, some "P", none, -100, "u1", false⟩,
            ⟨6, some "Q", none, -200, "b1", true⟩]⟩ true 0 []).1,
        ¬e.financial_id
          = some (⟨5, some "P", none, -100, "u1", false⟩ : BankTransaction).transaction_id) ∧
      (∀ e ∈ (run_bank_sync_account ⟨false, some "goCardless"⟩
          ⟨1000, [⟨5, some "P", none, -100, "u1", false⟩,
            ⟨6, some "Q", none, -200, "b1", true⟩]⟩ true 0 []).2,
        ¬e.financial_id
          = some (⟨5, some "P", none, -100, "u1", false⟩ : BankTransaction).transaction_id)) :=
  ⟨by decide, by decide, by decide,
    bank_sync_never_imports_unbooked ⟨false, some "goCardless"⟩
      ⟨1000, [⟨5, some "P", none, -100, "u1", false⟩, ⟨6, some "Q", none, -200, "b1", true⟩]⟩
      true 0 [] ⟨5, some "P", none, -100, "u1", false⟩
      (by decide) (by decide) (by decide) (by intro e he; simp at he)⟩

/-- **C6** (amended): on the first bank sync of an account with no local
transactions and a non-zero computed starting balance, exactly one
starting-balance entry is synthesized, in the imported list and in the
final ledger; it is dated at the **last** transaction of the delivered
feed (`today` when the feed is empty), attributed to the well-known
`"Starting Balance"` payee unless the account is off-budget, cleared, and
its amount is the computed starting balance — the reported balance, except
for simpleFin sources where the sum of the delivered amounts is
subtracted.  In the spec's scenario (reported balance `5000`, one booked
transaction of `-1200`) the amount is therefore `6200` for a simpleFin
account but `5000` for any other source. -/
theorem first_sync_synthesizes_starting_balance (acct : Accounts) (resp : BankSyncResponse)
    (today : Int) (hB : ¬balance_to_use acct resp = 0) :
    (run_bank_sync_account acct resp true today []).1.filter
        (fun e => e.starting_balance_flag) = [startingTransaction acct resp today] ∧
    (run_bank_sync_account acct resp true today []).2.filter
        (fun e => e.starting_balance_flag) = [startingTransaction acct resp today] ∧
    (startingTransaction acct resp today).amount = balance_to_use acct resp ∧
    (startingTransaction acct resp today).date =
      (match resp.transactions_all.getLast? with
        | some t => t.date
        | none => today) ∧
    (startingTransaction acct resp today).payee =
      (if acct.offbudget then none else some "Starting Balance") ∧
    (startingTransaction acct resp today).cleared = true ∧
    balance_to_use ⟨false, some "simpleFin"⟩
      ⟨5000, [⟨10, some "P", none, -1200, "x1", true⟩]⟩ = 6200 ∧
    balance_to_use ⟨false, some "goCardless"⟩
      ⟨5000, [⟨10, some "P", none, -1200, "x1", true⟩]⟩ = 5000 := by
  have hflag : (startingTransaction acct resp today).starting_balance_flag = true := rfl
  obtain ⟨h1, h2⟩ := bankSyncLoop_keeps_single_flag (startingTransaction acct resp today)
    resp.transactions_all.reverse [startingTransaction acct resp today]
    ([] ++ [startingTransaction acct resp today])
    (by simp) (by simp [hflag]) (by simp [hflag])
  unfold run_bank_sync_account
  rw [if_pos ⟨rfl, hB⟩]
  exact ⟨h1, h2, rfl, rfl, rfl, rfl, by decide, by decide⟩

/-- **C6 counterexample**: the claim as stated is false on both counts.
For a non-simpleFin (goCardless) account the spec scenario (balance
`5000`, one booked transaction of `-1200`) synthesizes a starting balance
of `5000`, not `6200`.  And for a feed delivered oldest-first, the entry
is dated at the date of the **last** delivered transaction (`20`, the
youngest), not at the oldest available transaction's date (`10`). -/
theorem starting_balance_scenario_mismatch :
    (run_bank_sync_account ⟨false, some "goCardless"⟩
        ⟨5000, [⟨10, some "P", none, -1200, "x1", true⟩]⟩ true 0 []).2.filter
        (fun e => e.starting_balance_flag)
      = [⟨10, some "Starting Balance", none, 5000, none, true, true⟩] ∧
    ¬(5000 : Int) = 6200 ∧
    (run_bank_sync_account ⟨false, some "simpleFin"⟩
        ⟨5000, [⟨10, some "P", none, -100, "y1", true⟩,
          ⟨20, some "Q", none, -200, "y2", true⟩]⟩ true 0 []).2.filter
        (fun e => e.starting_balance_flag)
      = [⟨20, some "Starting Balance", none, 5300, none, true, true⟩] ∧
    ¬(20 : Int) = 10 := by
  refine ⟨by decide, by decide, by decide, by decide⟩

/-- **C6 witness**: the amended theorem at the simpleFin spec scenario
(the synthesized amount is `6200`). -/
theorem first_sync_synthesizes_starting_balance_witness :
    ¬balance_to_use ⟨false, some "simpleFin"⟩
      ⟨5000, [⟨10, some "P", none, -1200, "x1", true⟩]⟩ = 0 ∧
    ((run_bank_sync_account ⟨false, some "simpleFin"⟩
        ⟨5000, [⟨10, some "P", none, -1200, "x1", true⟩]⟩ true 0 []).1.filter
        (fun e => e.starting_balance_flag)
      = [startingTransaction ⟨false, some "simpleFin"⟩
          ⟨5000, [⟨10, some "P", none, -1200, "x1", true⟩]⟩ 0] ∧
    (run_bank_sync_account ⟨false, some "simpleFin"⟩
        ⟨5000, [⟨10, some "P", none, -1200, "x1", true⟩]⟩ true 0 []).2.filter
        (fun e => e.starting_balance_flag)
      = [startingTransaction ⟨false, some "simpleFin"⟩
          ⟨5000, [⟨10, some "P", none, -1200, "x1", true⟩]⟩ 0] ∧
    (startingTransaction ⟨false, some "simpleFin"⟩
        ⟨5000, [⟨10, some "P", none, -1200, "x1", true⟩]⟩ 0).amount
      = balance_to_use ⟨false, some "simpleFin"⟩
          ⟨5000, [⟨10, some "P", none, -1200, "x1", true⟩]⟩ ∧
    (startingTransaction ⟨false, some "simpleFin"⟩
        ⟨5000, [⟨10, some "P", none, -1200, "x1", true⟩]⟩ 0).date =
      (match (⟨5000, [⟨10, some "P", none, -1200, "x1", true⟩]⟩ :
          BankSyncResponse).transactions_all.getLast? with
        | some t => t.date
        | none => (0 : Int)) ∧
    (startingTransaction ⟨false, some "simpleFin"⟩
        ⟨5000, [⟨10, some "P", none, -1200, "x1", true⟩]⟩ 0).payee =
      (if (⟨false, some "simpleFin"⟩ : Accounts).offbudget then none
        else some "Starting Balance") ∧
    (startingTransaction ⟨false, some "simpleFin"⟩
        ⟨5000, [⟨10, some "P", none, -1200, "x1", true⟩]⟩ 0).cleared = true ∧
    balance_to_use ⟨false, some "simpleFin"⟩
      ⟨5000, [⟨10, some "P", none, -1200, "x1", true⟩]⟩ = 6200 ∧
    balance_to_use ⟨false, some "goCardless"⟩
      ⟨5000, [⟨10, some "P", none, -1200, "x1", true⟩]⟩ = 5000) :=
  ⟨by decide,
    first_sync_synthesizes_starting_balance ⟨false, some "simpleFin"⟩
      ⟨5000, [⟨10, some "P", none, -1200, "x1", true⟩]⟩ 0 (by decide)⟩

end Actualpy
